import Mathlib

/-!
Shallow embedding of the goiter library (Go): the `Iter` pull-iterator state
machine, its adapters and derived operations, together with proofs about the
specified behaviour.

Go panics are modelled as `Except.error` carrying the panic message; Go's
`interface{}` payload of an iterator is modelled by the type parameter `α`,
with `Option α` standing for a possibly-`nil` `interface{}` slot.  A Go
iterating function (a stateful closure `func() (interface{}, bool)`) is
modelled as a step function `σ → Except String (Option α × σ)` over an
explicit state type `σ`: `some v` models `(v, true)` and `none` models
`(_, false)`; `Except.error` models a panic raised inside the closure.
-/

namespace Goiter

set_option maxRecDepth 8000

/-- Go error-message constants from the source (`const` block). -/
def InvalidUTF8EncodingError : String := "Invalid UTF 8 encoding"

def ErrNextExhaustedIter : String := "Iter.Next called on exhausted iterator"

def ErrValueExhaustedIter : String := "Iter.Value called on exhausted iterator"

def ErrValueNextFirst : String := "Iter.Next has to be called before iter.Value"

def ErrUnreadExhaustedIter : String := "Iter.Unread called on exhausted iterator"

def ErrRowsGreaterThanZero : String := "rows must be > 0"

/-- Modelling device: error raised when the fuel of a loop model runs out.
The Go loops have no such case; theorems always supply enough fuel. -/
def ErrOutOfFuel : String := "model: out of fuel"

/-- The `Iter` struct from the source:
`iter` is the iterating function's remaining state (`none` models the Go
field being set to `nil` on exhaustion), `step` is the iterating function's
transition (fixed at construction, the code part of the Go closure),
`nextCalled` and `value` are the fields of the same name (`value` starts as
`nil`, modelled `none`), `buffer` is the unread/pushback buffer. -/
structure Iter (σ α : Type) where
  step : σ → Except String (Option α × σ)
  iter : Option σ
  nextCalled : Bool
  value : Option α
  buffer : List α

/-- Constructor `NewIter`: constructs an `Iter` from an iterating function
(state `s` plus transition `step`).  The Go nil-check on the function
pointer cannot arise in the typed model. -/
def NewIter (step : σ → Except String (Option α × σ)) (s : σ) : Iter σ α :=
  ⟨step, some s, false, none, []⟩

/-- Method `Iter.Next` from the source: error if exhausted; otherwise pop the last
buffer element if the buffer is non-empty; otherwise consult the iterating
function, storing the value on `true` and discarding the function
(permanently) on `false`. -/
def Iter.Next (it : Iter σ α) : Except String (Bool × Iter σ α) :=
  match it.iter with
  | none => .error ErrNextExhaustedIter
  | some s =>
    if 0 < it.buffer.length then
      .ok (true, { it with nextCalled := true, value := it.buffer.getLast?,
                           buffer := it.buffer.dropLast })
    else
      match it.step s with
      | .error e => .error e
      | .ok (some v, s2) =>
        .ok (true, { it with iter := some s2, nextCalled := true, value := some v })
      | .ok (none, _) => .ok (false, { it with iter := none })

/-- Method `Iter.Value` from the source: error if exhausted, error if `Next` has not
been called since the last `Value`; otherwise clear `nextCalled` and return
the stored value. -/
def Iter.Value (it : Iter σ α) : Except String (Option α × Iter σ α) :=
  match it.iter with
  | none => .error ErrValueExhaustedIter
  | some _ =>
    if it.nextCalled then .ok (it.value, { it with nextCalled := false })
    else .error ErrValueNextFirst

/-- Method `Iter.Unread` from the source: error if exhausted, otherwise append the
value to the end of the buffer. -/
def Iter.Unread (it : Iter σ α) (val : α) : Except String (Iter σ α) :=
  match it.iter with
  | none => .error ErrUnreadExhaustedIter
  | some _ => .ok { it with buffer := it.buffer ++ [val] }

/-- Method `Iter.NextValue` from the source: `it.Next(); return it.Value()`
(the boolean result of `Next` is discarded). -/
def Iter.NextValue (it : Iter σ α) : Except String (Option α × Iter σ α) :=
  match it.Next with
  | .error e => .error e
  | .ok (_, it2) => it2.Value

/-- Adapter `ArraySliceIterFunc` from the source, for a (one-dimensional) slice
modelled as a Lean list: the closure state is the index `idx`; while the
index is below the length, return the element there and advance. -/
def ArraySliceIterFunc (arraySlice : List α) : Nat → Except String (Option α × Nat) :=
  fun idx =>
    if h : idx < arraySlice.length then
      .ok (some (arraySlice.get ⟨idx, h⟩), idx + 1)
    else
      .ok (none, idx)

/-- Constructor `Of` from the source: an `Iter` over the items passed,
built on `ArraySliceIterFunc` starting at index 0. -/
def Of (items : List α) : Iter Nat α :=
  NewIter (ArraySliceIterFunc items) 0

/-- Method `Iter.ToSlice` from the source: `for it.Next() { slice = append(slice, it.Value()) }`.
The `fuel` argument bounds the number of loop iterations (a modelling device;
the Go loop's termination depends on the iterating function). -/
def Iter.ToSlice (fuel : Nat) (it : Iter σ α) :
    Except String (List (Option α) × Iter σ α) :=
  match fuel with
  | 0 => .error ErrOutOfFuel
  | fuel + 1 =>
    match it.Next with
    | .error e => .error e
    | .ok (false, it2) => .ok ([], it2)
    | .ok (true, it2) =>
      match it2.Value with
      | .error e => .error e
      | .ok (v, it3) =>
        match it3.ToSlice fuel with
        | .error e => .error e
        | .ok (l, it4) => .ok (v :: l, it4)

/-- The row-building loop of `Iter.SplitIntoColumns` (part_004 variant):
for each of the remaining `n` rows, the row is `values[start:end]` where
`end = start + numItems`, plus one extra element while remainder `rmdr`
is positive. -/
def splitColsLoop (values : List α) (numItems : Nat) :
    Nat → Nat → Nat → List (List α)
  | 0, _, _ => []
  | n + 1, start, rmdr =>
    let extra := if 0 < rmdr then 1 else 0
    ((values.drop start).take (numItems + extra)) ::
      splitColsLoop values numItems n (start + numItems + extra) (rmdr - 1)

/-- The pure core of `Iter.SplitIntoColumns` (part_004 variant), applied to
the already-collected `values`: `numItems, rmdr = len/rows, len%rows`,
overridden to `numRows = len, numItems = 1, rmdr = 0` when there are fewer
values than rows. -/
def splitIntoColumnsValues (values : List α) (rows : Nat) : List (List α) :=
  if values.length < rows then
    splitColsLoop values 1 values.length 0 0
  else
    splitColsLoop values (values.length / rows) rows 0 (values.length % rows)

/-- Method `Iter.SplitIntoColumns` from the source (part_004, materializing variant):
error if `rows = 0`, otherwise collect all values with `ToSlice` and split
them so that each row gets `len/rows` items with the remainder spread across
the leading rows. -/
def Iter.SplitIntoColumns (fuel : Nat) (it : Iter σ α) (rows : Nat) :
    Except String (List (List (Option α))) :=
  if rows = 0 then .error ErrRowsGreaterThanZero
  else
    match it.ToSlice fuel with
    | .error e => .error e
    | .ok (values, _) => .ok (splitIntoColumnsValues values rows)

/-- Models `split[idx] = append(split[idx], v)` on the grid of rows. -/
def appendAt (split : List (List β)) (idx : Nat) (v : β) : List (List β) :=
  split.set idx ((split.getD idx []) ++ [v])

/-- Second loop of the iter.go (streaming) `SplitIntoColumns` variant:
append each further element to row `idx`, cycling `idx` through `0..rows-1`. -/
def Iter.SplitIntoColumnsV1Loop (fuel : Nat) (it : Iter σ α) (rows idx : Nat)
    (split : List (List (Option α))) : Except String (List (List (Option α))) :=
  match fuel with
  | 0 => .error ErrOutOfFuel
  | fuel + 1 =>
    match it.Next with
    | .error e => .error e
    | .ok (false, _) => .ok split
    | .ok (true, it2) =>
      match it2.Value with
      | .error e => .error e
      | .ok (v, it3) =>
        let split2 := appendAt split idx v
        let idx2 := if idx + 1 = rows then 0 else idx + 1
        Iter.SplitIntoColumnsV1Loop fuel it3 rows idx2 split2

/-- First loop of the iter.go (streaming) `SplitIntoColumns` variant:
create up to `rows` rows with one element each, returning early with the
one-element rows if the iterator runs out. -/
def Iter.SplitIntoColumnsV1Phase1 (fuel : Nat) (it : Iter σ α) (rows remaining : Nat)
    (split : List (List (Option α))) : Except String (List (List (Option α))) :=
  match remaining with
  | 0 => Iter.SplitIntoColumnsV1Loop fuel it rows 0 split
  | r + 1 =>
    match it.Next with
    | .error e => .error e
    | .ok (false, _) => .ok split
    | .ok (true, it2) =>
      match it2.Value with
      | .error e => .error e
      | .ok (v, it3) =>
        Iter.SplitIntoColumnsV1Phase1 fuel it3 rows r (split ++ [[v]])

/-- Method `SplitIntoColumns` from the older iter.go source (streaming variant):
one element per row first, then remaining elements appended round-robin
top to bottom.  (iter.go's `Iter` lacks the unread buffer; on the
buffer-free iterators these theorems use, the two `Iter` types agree.) -/
def Iter.SplitIntoColumnsV1 (fuel : Nat) (it : Iter σ α) (rows : Nat) :
    Except String (List (List (Option α))) :=
  if rows = 0 then .error ErrRowsGreaterThanZero
  else Iter.SplitIntoColumnsV1Phase1 fuel it rows rows []

/-- A Go value that may be an arbitrarily nested array/slice: `leaf` is any
non-array/slice value, `arr` is an array or slice of such values. -/
inductive NestedVal (α : Type) : Type where
  | leaf : α → NestedVal α
  | arr : List (NestedVal α) → NestedVal α

/-- The recursive closure `f` inside `FlattenArraySlice`: iterate the current
array or slice left to right, recursing into array/slice elements and
appending every other element to the result. -/
def flattenListF : List (NestedVal α) → List α
  | [] => []
  | NestedVal.leaf a :: t => a :: flattenListF t
  | NestedVal.arr l :: t => flattenListF l ++ flattenListF t

/-- Function `FlattenArraySlice` from the source: panic unless the argument is an
array or slice, then flatten it to one dimension with the recursive
closure. -/
def FlattenArraySlice : NestedVal α → Except String (List α)
  | NestedVal.leaf _ => .error "FlattenArraySlice argument must be an array or slice"
  | NestedVal.arr l => .ok (flattenListF l)

mutual

/-- Modelled from the spec: the leaf values of a nested value in
left-to-right, depth-first order (a non-sequence value is its own single
leaf). -/
def dfLeaves : NestedVal α → List α
  | NestedVal.leaf a => [a]
  | NestedVal.arr l => dfLeavesList l

/-- Modelled from the spec: the depth-first leaves of a list of nested
values, left to right. -/
def dfLeavesList : List (NestedVal α) → List α
  | [] => []
  | h :: t => dfLeaves h ++ dfLeavesList t

end

/-- Go's `utf8.RuneError` (U+FFFD). -/
def RuneError : Nat := 0xFFFD

/-- Go's `utf8.DecodeRune` on a byte list: returns the first rune and its
encoded size, or `(RuneError, 1)` on an invalid, overlong, surrogate,
out-of-range or truncated encoding (`(RuneError, 0)` on empty input). -/
def utf8DecodeRune : List Nat → Nat × Nat
  | [] => (RuneError, 0)
  | b0 :: rest =>
    if b0 < 0x80 then (b0, 1)
    else if b0 < 0xC2 then (RuneError, 1)
    else if b0 < 0xE0 then
      match rest with
      | b1 :: _ =>
        if b1 < 0x80 ∨ 0xBF < b1 then (RuneError, 1)
        else ((b0 - 0xC0) * 0x40 + (b1 - 0x80), 2)
      | _ => (RuneError, 1)
    else if b0 < 0xF0 then
      match rest with
      | b1 :: b2 :: _ =>
        let lo := if b0 = 0xE0 then 0xA0 else 0x80
        let hi := if b0 = 0xED then 0x9F else 0xBF
        if b1 < lo ∨ hi < b1 then (RuneError, 1)
        else if b2 < 0x80 ∨ 0xBF < b2 then (RuneError, 1)
        else ((b0 - 0xE0) * 0x1000 + (b1 - 0x80) * 0x40 + (b2 - 0x80), 3)
      | _ => (RuneError, 1)
    else if b0 < 0xF5 then
      match rest with
      | b1 :: b2 :: b3 :: _ =>
        let lo := if b0 = 0xF0 then 0x90 else 0x80
        let hi := if b0 = 0xF4 then 0x8F else 0xBF
        if b1 < lo ∨ hi < b1 then (RuneError, 1)
        else if b2 < 0x80 ∨ 0xBF < b2 then (RuneError, 1)
        else if b3 < 0x80 ∨ 0xBF < b3 then (RuneError, 1)
        else ((b0 - 0xF0) * 0x40000 + (b1 - 0x80) * 0x1000 +
              (b2 - 0x80) * 0x40 + (b3 - 0x80), 4)
      | _ => (RuneError, 1)
    else (RuneError, 1)

/-- State of the `ReaderToRunesIterFunc` closure: the 4-byte decode buffer,
the write position `bufPos` for the next read, and the remaining bytes of
the reader (a `bytes`/`strings.Reader`-style source: each `Read` fills as
many of the requested bytes as remain, and reports EOF when empty). -/
structure RunesState where
  buf : List Nat
  bufPos : Nat
  src : List Nat
deriving DecidableEq

/-- Initial state of `ReaderToRunesIterFunc`: zeroed 4-byte buffer, write
position 0, whole source pending. -/
def runesInit (src : List Nat) : RunesState := ⟨[0, 0, 0, 0], 0, src⟩

/-- One call of the `ReaderToRunesIterFunc` closure: read up to `4 - bufPos`
bytes from the source into the tail of the buffer (EOF is not an error);
if the first buffer byte is 0, report exhaustion; otherwise decode one rune,
panicking on an invalid encoding, then shift the unconsumed bytes to the
front of the buffer and zero the rest. -/
def runesStep (st : RunesState) : Except String (Option Nat × RunesState) :=
  let request := 4 - st.bufPos
  let got := st.src.take request
  let src2 := st.src.drop request
  let buf2 := st.buf.take st.bufPos ++ got ++ st.buf.drop (st.bufPos + got.length)
  if buf2.headD 0 = 0 then
    .ok (none, ⟨buf2, st.bufPos, src2⟩)
  else
    let dr := utf8DecodeRune buf2
    if dr.1 = RuneError then .error InvalidUTF8EncodingError
    else
      .ok (some dr.1, ⟨buf2.drop dr.2 ++ List.replicate dr.2 0, 4 - dr.2, src2⟩)

/-- Drive an iterating function until it reports exhaustion, collecting the
values (fuel-bounded modelling device). -/
def runIterFn (step : σ → Except String (Option α × σ)) :
    Nat → σ → Except String (List α)
  | 0, _ => .error ErrOutOfFuel
  | fuel + 1, s =>
    match step s with
    | .error e => .error e
    | .ok (none, _) => .ok []
    | .ok (some v, s2) =>
      match runIterFn step fuel s2 with
      | .error e => .error e
      | .ok l => .ok (v :: l)

/-- All runes produced by `ReaderToRunesIterFunc` on the given byte source. -/
def ReaderToRunesAll (fuel : Nat) (src : List Nat) : Except String (List Nat) :=
  runIterFn runesStep fuel (runesInit src)

/-- Modelled from the spec: the standard UTF-8 encoding of one character. -/
def utf8EncodeChar (c : Nat) : List Nat :=
  if c < 0x80 then [c]
  else if c < 0x800 then [0xC0 + c / 0x40, 0x80 + c % 0x40]
  else if c < 0x10000 then
    [0xE0 + c / 0x1000, 0x80 + c / 0x40 % 0x40, 0x80 + c % 0x40]
  else
    [0xF0 + c / 0x40000, 0x80 + c / 0x1000 % 0x40, 0x80 + c / 0x40 % 0x40,
     0x80 + c % 0x40]

/-- Modelled from the spec: the UTF-8 encoding of a character sequence. -/
def utf8Encode (cs : List Nat) : List Nat := (cs.map utf8EncodeChar).flatten

/-- One call of the `ReaderToLinesIterFunc` closure, generic in the rune
iterating function `step` it is layered on (in the source, a
`ReaderToRunesIterFunc` closure): accumulate runes into `str` until a line
terminator or exhaustion, with the `lastCR` flag carried across calls
exactly as in the source (set on `\r`, cleared only when a `\n` is skipped).
Returns the line (as a rune list) or `none` at exhaustion with empty
accumulator, plus the updated rune-iterator state and `lastCR` flag. -/
def linesNext (step : σ → Except String (Option Nat × σ)) :
    Nat → σ → Bool → List Nat → Except String (Option (List Nat) × σ × Bool)
  | 0, _, _, _ => .error ErrOutOfFuel
  | fuel + 1, s, lastCR, str =>
    match step s with
    | .error e => .error e
    | .ok (none, s2) =>
      if 0 < str.length then .ok (some str, s2, lastCR)
      else .ok (none, s2, lastCR)
    | .ok (some cp, s2) =>
      if cp = 13 then .ok (some str, s2, true)
      else if cp = 10 then
        if lastCR then linesNext step fuel s2 false str
        else .ok (some str, s2, lastCR)
      else linesNext step fuel s2 lastCR (str ++ [cp])

/-- Repeatedly call the lines closure until it reports exhaustion, collecting
the lines (each call starts with a reset accumulator, as in the source). -/
def collectLines (step : σ → Except String (Option Nat × σ)) :
    Nat → σ → Bool → Except String (List (List Nat))
  | 0, _, _ => .error ErrOutOfFuel
  | fuel + 1, s, lastCR =>
    match linesNext step (fuel + 1) s lastCR [] with
    | .error e => .error e
    | .ok (none, _, _) => .ok []
    | .ok (some line, s2, cr2) =>
      match collectLines step fuel s2 cr2 with
      | .error e => .error e
      | .ok ls => .ok (line :: ls)

/-- All lines produced by `ReaderToLinesIterFunc` on the given byte source
(the source composes the lines closure over `ReaderToRunesIterFunc`). -/
def ReaderToLinesAll (fuel : Nat) (src : List Nat) : Except String (List (List Nat)) :=
  collectLines runesStep fuel (runesInit src) false

/-- Modelled from the spec: split a rune sequence into lines on the
terminators CR, LF and CR-immediately-followed-by-LF (one terminator),
stripping the terminator; a final non-terminated fragment is one last line;
empty input gives zero lines. -/
def splitLinesSpec (acc : List Nat) : List Nat → List (List Nat)
  | [] => if 0 < acc.length then [acc] else []
  | 13 :: 10 :: t => acc :: splitLinesSpec [] t
  | 13 :: t => acc :: splitLinesSpec [] t
  | 10 :: t => acc :: splitLinesSpec [] t
  | c :: t => splitLinesSpec (acc ++ [c]) t

/-- C1: once `Next` has returned `false` the iterator is permanently
exhausted — the resulting state has its iterating function discarded, and
every subsequent `Next` or `Value` call panics; in particular, a fresh
iterator over an empty source returns `false` on the first `Next` and
panics on the second rather than silently returning `false` again. -/
theorem next_false_permanently_exhausts :
    (∀ (σ α : Type) (it it2 : Iter σ α), it.Next = .ok (false, it2) →
      it2.iter = none ∧ it2.Next = .error ErrNextExhaustedIter ∧
        it2.Value = .error ErrValueExhaustedIter) ∧
    (∀ (α : Type),
      (Of ([] : List α)).Next =
        .ok (false, Iter.mk (ArraySliceIterFunc []) none false none []) ∧
      (Iter.mk (ArraySliceIterFunc ([] : List α)) none false none []).Next =
        .error ErrNextExhaustedIter) := by
  constructor
  · intro σ α it it2 h
    obtain ⟨st, oi, nc, v, b⟩ := it
    cases oi with
    | none => simp [Iter.Next] at h
    | some s =>
      by_cases hb : 0 < b.length
      · simp [Iter.Next, hb] at h
      · cases hst : st s with
        | error e => simp [Iter.Next, hb, hst] at h
        | ok p =>
          obtain ⟨ov, s2⟩ := p
          cases ov with
          | some w => simp [Iter.Next, hb, hst] at h
          | none =>
            simp [Iter.Next, hb, hst] at h
            subst h
            exact ⟨rfl, rfl, rfl⟩
  · intro α
    exact ⟨rfl, rfl⟩

/-- C1 witness: the general exhaustion fact applied to the concrete empty
iterator over `Nat`. -/
theorem next_false_permanently_exhausts_witness :
    (Iter.mk (ArraySliceIterFunc ([] : List Nat)) none false none []
        : Iter Nat Nat).Next = .error ErrNextExhaustedIter :=
  (next_false_permanently_exhausts.1 Nat Nat (Of [])
    (Iter.mk (ArraySliceIterFunc []) none false none []) rfl).2.1

/-- C2: on any non-exhausted iterator, `Unread v` followed by `Next`/`Value`
delivers `v`, and unreading `v1, v2, v3` then running three `Next`/`Value`
cycles delivers `v3, v2, v1` (LIFO), without ever consulting the underlying
iterating function (the equations hold for an arbitrary step function and
state, which are left untouched). -/
theorem unread_lifo :
    ∀ (σ α : Type) (st : σ → Except String (Option α × σ)) (s : σ)
      (nc : Bool) (v0 : Option α) (b : List α) (v1 v2 v3 : α),
      ((Iter.mk st (some s) nc v0 b).Unread v1 =
        .ok (Iter.mk st (some s) nc v0 (b ++ [v1]))) ∧
      ((Iter.mk st (some s) nc v0 (b ++ [v1])).NextValue =
        .ok (some v1, Iter.mk st (some s) false (some v1) b)) ∧
      (((Iter.mk st (some s) nc v0 b).Unread v1 >>= fun i1 =>
          i1.Unread v2 >>= fun i2 => i2.Unread v3) =
        .ok (Iter.mk st (some s) nc v0 (b ++ [v1, v2, v3]))) ∧
      ((Iter.mk st (some s) nc v0 (b ++ [v1, v2, v3])).NextValue =
        .ok (some v3, Iter.mk st (some s) false (some v3) (b ++ [v1, v2]))) ∧
      ((Iter.mk st (some s) false (some v3) (b ++ [v1, v2])).NextValue =
        .ok (some v2, Iter.mk st (some s) false (some v2) (b ++ [v1]))) ∧
      ((Iter.mk st (some s) false (some v2) (b ++ [v1])).NextValue =
        .ok (some v1, Iter.mk st (some s) false (some v1) b)) := by
  intro σ α st s nc v0 b v1 v2 v3
  have h3 : b ++ [v1, v2, v3] = (b ++ [v1, v2]) ++ [v3] := by simp
  have h2 : b ++ [v1, v2] = (b ++ [v1]) ++ [v2] := by simp
  have g3 : (b ++ [v1, v2, v3]).getLast? = some v3 := by
    rw [h3, List.getLast?_concat]
  have d3 : (b ++ [v1, v2, v3]).dropLast = b ++ [v1, v2] := by
    rw [h3, List.dropLast_concat]
  have g2 : (b ++ [v1, v2]).getLast? = some v2 := by
    rw [h2, List.getLast?_concat]
  have d2 : (b ++ [v1, v2]).dropLast = b ++ [v1] := by
    rw [h2, List.dropLast_concat]
  refine ⟨?_, ?_, ?_, ?_, ?_, ?_⟩
  · simp [Iter.Unread]
  · simp [Iter.NextValue, Iter.Next, Iter.Value, List.getLast?_concat,
      List.dropLast_concat]
  · simp [Iter.Unread, Bind.bind, Except.bind]
  · simp [Iter.NextValue, Iter.Next, Iter.Value, g3, d3]
  · simp [Iter.NextValue, Iter.Next, Iter.Value, g2, d2]
  · simp [Iter.NextValue, Iter.Next, Iter.Value, List.getLast?_concat,
      List.dropLast_concat]

/-- C3 counterexample: immediately after `Unread` on a fresh iterator (no
prior `Next`), a `Value` call fails with the Next-first panic, although the
iterator is not exhausted and the pushback stack is non-empty — refuting the
claim that `Value` succeeds whenever the pushback stack is non-empty. -/
theorem value_after_unread_fails :
    ((Of ([1] : List Nat)).Unread 42 >>= Iter.Value) =
      .error ErrValueNextFirst := rfl

/-- C3 (amended): `Value` succeeds exactly when the iterator is not
exhausted and the last `Next` call returned `true` with no intervening
`Value` call (the `nextCalled` flag); the pushback stack plays no role:
`Value` twice without an intervening `Next` fails, and `Value` right after
`Unread` with no prior `Next` fails with the Next-first panic. -/
theorem value_success_iff :
    (∀ (σ α : Type) (it : Iter σ α),
      (∃ r, it.Value = .ok r) ↔ (it.iter ≠ none ∧ it.nextCalled = true)) ∧
    (∀ (σ α : Type) (it it2 : Iter σ α) (v : Option α),
      it.Value = .ok (v, it2) → it2.Value = .error ErrValueNextFirst) ∧
    (∀ (σ α : Type) (it itu : Iter σ α) (v : α),
      it.nextCalled = false → it.Unread v = .ok itu →
      itu.Value = .error ErrValueNextFirst) := by
  refine ⟨?_, ?_, ?_⟩
  · intro σ α it
    obtain ⟨st, oi, nc, v, b⟩ := it
    cases oi with
    | none => simp [Iter.Value]
    | some s => cases nc <;> simp [Iter.Value]
  · intro σ α it it2 v h
    obtain ⟨st, oi, nc, v0, b⟩ := it
    cases oi with
    | none => simp [Iter.Value] at h
    | some s =>
      cases nc with
      | false => simp [Iter.Value] at h
      | true =>
        simp [Iter.Value] at h
        obtain ⟨hv, hit⟩ := h
        rw [← hit]
        simp [Iter.Value]
  · intro σ α it itu v hnc h
    obtain ⟨st, oi, nc, v0, b⟩ := it
    cases oi with
    | none => simp [Iter.Unread] at h
    | some s =>
      simp [Iter.Unread] at h
      subst hnc
      rw [← h]
      simp [Iter.Value]

/-- C3 witness: the amended success condition applied to a concrete
iterator: after `Unread 42` on a fresh iterator over `[1]`, `Value` fails
with the Next-first panic. -/
theorem value_success_iff_witness :
    (Iter.mk (ArraySliceIterFunc ([1] : List Nat)) (some 0) false none [42]
        : Iter Nat Nat).Value = .error ErrValueNextFirst :=
  value_success_iff.2.2 Nat Nat (Of [1])
    (Iter.mk (ArraySliceIterFunc [1]) (some 0) false none [42]) 42 rfl rfl

/-- C9: the invariant "an exhausted iterator has an empty pushback buffer"
is established by `NewIter` and preserved by every operation: `Next` can
only reach the exhausting branch with an empty buffer (it consults the
iterating function only then), `Value` leaves buffer and exhaustion alone,
`Unread` panics on an exhausted iterator, and the exhausting `Next` call
itself happens with, and leaves, an empty buffer. -/
theorem exhausted_implies_empty_buffer :
    (∀ (σ α : Type) (st : σ → Except String (Option α × σ)) (s : σ),
      (NewIter st s : Iter σ α).iter = none → (NewIter st s : Iter σ α).buffer = []) ∧
    (∀ (σ α : Type) (it it2 : Iter σ α) (bl : Bool),
      it.Next = .ok (bl, it2) → it2.iter = none → it2.buffer = []) ∧
    (∀ (σ α : Type) (it it2 : Iter σ α) (v : Option α),
      it.Value = .ok (v, it2) → it2.iter = none → it2.buffer = []) ∧
    (∀ (σ α : Type) (it it2 : Iter σ α) (v : α),
      it.Unread v = .ok it2 → it2.iter = none → it2.buffer = []) ∧
    (∀ (σ α : Type) (it : Iter σ α) (v : α),
      it.iter = none → it.Unread v = .error ErrUnreadExhaustedIter) ∧
    (∀ (σ α : Type) (it it2 : Iter σ α),
      it.Next = .ok (false, it2) → it.buffer = [] ∧ it2.buffer = []) := by
  have hnext : ∀ (σ α : Type) (it it2 : Iter σ α) (bl : Bool),
      it.Next = .ok (bl, it2) →
      (it2.iter = none → it2.buffer = []) ∧ (bl = false → it.buffer = [] ∧ it2.buffer = []) := by
    intro σ α it it2 bl h
    obtain ⟨st, oi, nc, v, b⟩ := it
    cases oi with
    | none => simp [Iter.Next] at h
    | some s =>
      by_cases hb : 0 < b.length
      · simp [Iter.Next, hb] at h
        obtain ⟨hbl, hit⟩ := h
        rw [← hit]
        subst hbl
        simp
      · cases hst : st s with
        | error e => simp [Iter.Next, hb, hst] at h
        | ok p =>
          obtain ⟨ov, s2⟩ := p
          have hb2 : b = [] := by
            cases b with
            | nil => rfl
            | cons x xs => simp at hb
          cases ov with
          | some w =>
            simp [Iter.Next, hb, hst] at h
            obtain ⟨hbl, hit⟩ := h
            rw [← hit]
            subst hbl
            simp [hb2]
          | none =>
            simp [Iter.Next, hb, hst] at h
            obtain ⟨hbl, hit⟩ := h
            rw [← hit]
            simp [hb2]
  refine ⟨?_, ?_, ?_, ?_, ?_, ?_⟩
  · intro σ α st s _
    rfl
  · intro σ α it it2 bl h
    exact (hnext σ α it it2 bl h).1
  · intro σ α it it2 v h
    obtain ⟨st, oi, nc, v0, b⟩ := it
    cases oi with
    | none => simp [Iter.Value] at h
    | some s =>
      cases nc with
      | false => simp [Iter.Value] at h
      | true =>
        simp [Iter.Value] at h
        obtain ⟨hv, hit⟩ := h
        rw [← hit]
        simp
  · intro σ α it it2 v h
    obtain ⟨st, oi, nc, v0, b⟩ := it
    cases oi with
    | none => simp [Iter.Unread] at h
    | some s =>
      simp [Iter.Unread] at h
      rw [← h]
      simp
  · intro σ α it v h
    obtain ⟨st, oi, nc, v0, b⟩ := it
    cases oi with
    | none => rfl
    | some s => simp at h
  · intro σ α it it2 h
    exact (hnext σ α it it2 false h).2 rfl

/-- C9 witness: the invariant facts applied to the concrete exhausting
`Next` call on a fresh iterator over the empty list. -/
theorem exhausted_implies_empty_buffer_witness :
    (Of ([] : List Nat)).buffer = [] ∧
      (Iter.mk (ArraySliceIterFunc ([] : List Nat)) none false none []).buffer = [] :=
  exhausted_implies_empty_buffer.2.2.2.2.2 Nat Nat (Of [])
    (Iter.mk (ArraySliceIterFunc []) none false none []) rfl

/-- Draining a list-backed iterator positioned at index `idx` with an empty
buffer yields the remaining elements in order and ends exhausted. -/
theorem toSlice_drain (L : List α) :
    ∀ (fuel idx : Nat) (nc : Bool) (v : Option α),
      L.length - idx < fuel →
      ∃ nc2 v2,
        (Iter.mk (ArraySliceIterFunc L) (some idx) nc v []).ToSlice fuel =
          .ok ((L.drop idx).map some,
               Iter.mk (ArraySliceIterFunc L) none nc2 v2 []) := by
  intro fuel
  induction fuel with
  | zero => intro idx nc v h; omega
  | succ f ih =>
    intro idx nc v h
    by_cases hidx : idx < L.length
    · obtain ⟨nc2, v2, hrec⟩ := ih (idx + 1) false (some (L.get ⟨idx, hidx⟩)) (by omega)
      rw [List.get_eq_getElem] at hrec
      have hidx2 : idx < (L.map some).length := by simpa using hidx
      refine ⟨nc2, v2, ?_⟩
      simp [Iter.ToSlice, Iter.Next, Iter.Value, ArraySliceIterFunc, hidx, hrec,
        List.drop_eq_getElem_cons hidx2]
    · refine ⟨nc, v, ?_⟩
      rw [List.drop_eq_nil_of_le (by omega)]
      simp [Iter.ToSlice, Iter.Next, ArraySliceIterFunc, hidx]

/-- C10: calling `Next` twice in a row without an intervening `Value` is not
an error: on a fresh iterator over `x1 :: x2 :: t` both calls return `true`,
the second call overwrites the stored value with `x2`, the following `Value`
returns `x2`, and draining the rest yields exactly `t` — the element `x1`
produced by the first call is discarded and never delivered. -/
theorem double_next_overwrites :
    ∀ (α : Type) (x1 x2 : α) (t : List α),
      (Of (x1 :: x2 :: t)).Next =
        .ok (true, Iter.mk (ArraySliceIterFunc (x1 :: x2 :: t)) (some 1) true (some x1) []) ∧
      (Iter.mk (ArraySliceIterFunc (x1 :: x2 :: t)) (some 1) true (some x1) []).Next =
        .ok (true, Iter.mk (ArraySliceIterFunc (x1 :: x2 :: t)) (some 2) true (some x2) []) ∧
      (Iter.mk (ArraySliceIterFunc (x1 :: x2 :: t)) (some 2) true (some x2) []).Value =
        .ok (some x2, Iter.mk (ArraySliceIterFunc (x1 :: x2 :: t)) (some 2) false (some x2) []) ∧
      ∃ itf,
        (Iter.mk (ArraySliceIterFunc (x1 :: x2 :: t)) (some 2) false (some x2) []).ToSlice
          (t.length + 1) = .ok (t.map some, itf) := by
  intro α x1 x2 t
  refine ⟨?_, ?_, ?_, ?_⟩
  · simp [Of, NewIter, Iter.Next, ArraySliceIterFunc]
  · simp [Iter.Next, ArraySliceIterFunc]
  · simp [Iter.Value]
  · obtain ⟨nc2, v2, h⟩ :=
      toSlice_drain (x1 :: x2 :: t) (t.length + 1) 2 false (some x2) (by simp)
    exact ⟨_, by simpa using h⟩

/-- C10 witness: the double-`Next` behaviour at the concrete input
`[10, 20, 30]`: the value delivered after two `Next` calls is `20`, and the
rest of the drain is `[30]` — `10` is never delivered. -/
theorem double_next_overwrites_witness :
    (Iter.mk (ArraySliceIterFunc ([10, 20, 30] : List Nat)) (some 2) true (some 20) []).Value =
      .ok (some 20, Iter.mk (ArraySliceIterFunc [10, 20, 30]) (some 2) false (some 20) []) :=
  (double_next_overwrites Nat 10 20 [30]).2.2.1

/-- The split loop produces exactly one group per requested row. -/
theorem splitColsLoop_length (values : List β) (k : Nat) :
    ∀ (n s r : Nat), (splitColsLoop values k n s r).length = n := by
  intro n
  induction n with
  | zero => intro s r; rfl
  | succ m ih => intro s r; simp [splitColsLoop, ih]

/-- Concatenating the groups of the split loop recovers a contiguous span of
the collected values. -/
theorem splitColsLoop_flatten (values : List β) (k : Nat) :
    ∀ (n s r : Nat), r ≤ n →
      (splitColsLoop values k n s r).flatten = (values.drop s).take (n * k + r) := by
  intro n
  induction n with
  | zero =>
    intro s r hr
    have hr0 : r = 0 := by omega
    subst hr0
    simp [splitColsLoop]
  | succ m ih =>
    intro s r hr
    rw [splitColsLoop]
    by_cases h0 : 0 < r
    · simp only [h0, if_pos, List.flatten_cons]
      rw [ih (s + k + 1) (r - 1) (by omega)]
      have harith : (m + 1) * k + r = (k + 1) + (m * k + (r - 1)) := by
        rw [Nat.succ_mul]; omega
      have hdd : (values.drop s).drop (k + 1) = values.drop (s + k + 1) := by
        rw [List.drop_drop]; congr 1
      conv_rhs => rw [harith, List.take_add]
      rw [hdd]
    · have hr0 : r = 0 := by omega
      subst hr0
      simp only [lt_self_iff_false, if_false, Nat.add_zero, Nat.zero_sub,
        List.flatten_cons]
      rw [ih (s + k) 0 (by omega)]
      have harith : (m + 1) * k = k + (m * k + 0) := by
        rw [Nat.succ_mul]; omega
      have hdd : (values.drop s).drop k = values.drop (s + k) := by
        rw [List.drop_drop]
      conv_rhs => rw [harith, List.take_add]
      rw [hdd]

/-- Every group of the split loop has length `numItems` or, while the
remainder is being spread, `numItems + 1`. -/
theorem splitColsLoop_len_mem (values : List β) (k : Nat) :
    ∀ (n s r : Nat), r ≤ n → s + n * k + r ≤ values.length →
      ∀ g ∈ splitColsLoop values k n s r,
        g.length = k ∨ (0 < r ∧ g.length = k + 1) := by
  intro n
  induction n with
  | zero => intro s r hr hb g hg; simp [splitColsLoop] at hg
  | succ m ih =>
    intro s r hr hb g hg
    rw [Nat.succ_mul] at hb
    rw [splitColsLoop] at hg
    by_cases h0 : 0 < r
    · simp only [h0, if_pos, List.mem_cons] at hg
      rcases hg with hg | hg
      · refine Or.inr ⟨h0, ?_⟩
        rw [hg]
        simp only [List.length_take, List.length_drop]
        omega
      · rcases ih (s + (k + 1)) (r - 1) (by omega) (by omega) g hg with h | ⟨hrp, h⟩
        · exact Or.inl h
        · exact Or.inr ⟨h0, h⟩
    · have hr0 : r = 0 := by omega
      subst hr0
      simp only [lt_self_iff_false, if_false, Nat.add_zero, Nat.zero_sub,
        List.mem_cons] at hg
      rcases hg with hg | hg
      · refine Or.inl ?_
        rw [hg]
        simp only [List.length_take, List.length_drop]
        omega
      · rcases ih (s + k) 0 (by omega) (by omega) g hg with h | ⟨hrp, h⟩
        · exact Or.inl h
        · exact absurd hrp (by omega)

/-- While the remainder is positive, the leading group of the split loop is
the next `numItems + 1` values. -/
theorem splitColsLoop_head (values : List β) (k n s r : Nat) (h0 : 0 < r)
    (hb : s + (k + 1) ≤ values.length) :
    (splitColsLoop values k (n + 1) s r).head? =
      some ((values.drop s).take (k + 1)) ∧
    ((values.drop s).take (k + 1)).length = k + 1 := by
  constructor
  · rw [splitColsLoop]
    simp [h0]
  · simp only [List.length_take, List.length_drop]
    omega

/-- C6: `SplitIntoColumns rows` on a fresh iterator over any list produces at
most `rows` groups (exactly one element per group when there are fewer
elements than rows), the concatenation of the groups is exactly the drained
elements, the total element count is preserved, any two group sizes differ
by at most 1, and when a remainder exists the leading group receives an
extra element. -/
theorem split_into_columns_shape :
    ∀ (α : Type) (L : List α) (rows fuel : Nat), 0 < rows → L.length < fuel →
      ∃ groups,
        (Of L).SplitIntoColumns fuel rows = .ok groups ∧
        groups.length ≤ rows ∧
        (L.length < rows → ∀ g ∈ groups, g.length = 1) ∧
        groups.flatten = L.map some ∧
        (groups.map List.length).sum = L.length ∧
        (∀ g1 ∈ groups, ∀ g2 ∈ groups, g1.length ≤ g2.length + 1) ∧
        (rows ≤ L.length → 0 < L.length % rows →
          ∃ g0, groups.head? = some g0 ∧ g0.length = L.length / rows + 1) := by
  intro α L rows fuel hrows hfuel
  obtain ⟨nc2, v2, hdrain⟩ := toSlice_drain L fuel 0 false none (by omega)
  rw [List.drop_zero] at hdrain
  have hlenV : (L.map some).length = L.length := by simp
  have hsplit : (Of L).SplitIntoColumns fuel rows =
      .ok (splitIntoColumnsValues (L.map some) rows) := by
    unfold Iter.SplitIntoColumns
    rw [if_neg (by omega)]
    rw [Of, NewIter, hdrain]
  have hmod : rows * (L.length / rows) + L.length % rows = L.length :=
    Nat.div_add_mod L.length rows
  have hmodlt : (L.map some).length % rows < rows := Nat.mod_lt _ hrows
  have hflat : (splitIntoColumnsValues (L.map some) rows).flatten = L.map some := by
    unfold splitIntoColumnsValues
    by_cases hc : (L.map some).length < rows
    · rw [if_pos hc, splitColsLoop_flatten _ _ _ _ _ (by omega)]
      simp
    · rw [if_neg hc, splitColsLoop_flatten _ _ _ _ _ (le_of_lt hmodlt)]
      rw [List.drop_zero, hlenV, hmod, ← hlenV, List.take_length]
  have hmem : ∀ g ∈ splitIntoColumnsValues (L.map some) rows,
      (L.map some).length < rows ∧ g.length = 1 ∨
      ¬ (L.map some).length < rows ∧
        (g.length = L.length / rows ∨
          (0 < L.length % rows ∧ g.length = L.length / rows + 1)) := by
    intro g hg
    unfold splitIntoColumnsValues at hg
    by_cases hc : (L.map some).length < rows
    · rw [if_pos hc] at hg
      rcases splitColsLoop_len_mem (L.map some) 1 (L.map some).length 0 0
        (by omega) (by omega) g hg with h | ⟨h0, h⟩
      · exact Or.inl ⟨hc, h⟩
      · omega
    · rw [if_neg hc] at hg
      rw [hlenV] at hg
      rcases splitColsLoop_len_mem (L.map some) (L.length / rows) rows 0
        (L.length % rows) (by rw [hlenV] at hmodlt; omega) (by omega) g hg with
        h | ⟨h0, h⟩
      · exact Or.inr ⟨hc, Or.inl h⟩
      · exact Or.inr ⟨hc, Or.inr ⟨h0, h⟩⟩
  refine ⟨splitIntoColumnsValues (L.map some) rows, hsplit, ?_, ?_, hflat, ?_, ?_, ?_⟩
  · unfold splitIntoColumnsValues
    by_cases hc : (L.map some).length < rows
    · rw [if_pos hc, splitColsLoop_length]
      omega
    · rw [if_neg hc, splitColsLoop_length]
  · intro hf g hg
    rcases hmem g hg with ⟨_, h⟩ | ⟨hc, _⟩
    · exact h
    · rw [hlenV] at hc; omega
  · have := List.length_flatten (splitIntoColumnsValues (L.map some) rows)
    rw [hflat] at this
    rw [← this, hlenV]
  · intro g1 hg1 g2 hg2
    rcases hmem g1 hg1 with ⟨_, h1⟩ | ⟨_, h1⟩ <;>
      rcases hmem g2 hg2 with ⟨_, h2⟩ | ⟨_, h2⟩ <;> omega
  · intro hge hrem
    have hc : ¬ (L.map some).length < rows := by omega
    obtain ⟨n1, hn1⟩ : ∃ n1, rows = n1 + 1 := ⟨rows - 1, by omega⟩
    have hbound : 0 + (L.length / rows + 1) ≤ (L.map some).length := by
      have hk : L.length / rows ≤ rows * (L.length / rows) :=
        Nat.le_mul_of_pos_left _ hrows
      omega
    have hh := splitColsLoop_head (L.map some) (L.length / rows) n1 0
      (L.length % rows) hrem hbound
    rw [← hn1] at hh
    refine ⟨((L.map some).drop 0).take (L.length / rows + 1), ?_, hh.2⟩
    unfold splitIntoColumnsValues
    rw [if_neg hc, hlenV]
    exact hh.1

/-- C6 witness: the shape facts applied at the concrete input `1..11` with
5 rows: the total element count across the 5 groups is 11. -/
theorem split_into_columns_shape_witness :
    ∃ groups,
      (Of ([1, 2, 3, 4, 5, 6, 7, 8, 9, 10, 11] : List Nat)).SplitIntoColumns 12 5 =
        .ok groups ∧
      groups.length ≤ 5 ∧
      (([1, 2, 3, 4, 5, 6, 7, 8, 9, 10, 11] : List Nat).length < 5 →
        ∀ g ∈ groups, g.length = 1) ∧
      groups.flatten = ([1, 2, 3, 4, 5, 6, 7, 8, 9, 10, 11] : List Nat).map some ∧
      (groups.map List.length).sum = 11 ∧
      (∀ g1 ∈ groups, ∀ g2 ∈ groups, g1.length ≤ g2.length + 1) ∧
      (5 ≤ ([1, 2, 3, 4, 5, 6, 7, 8, 9, 10, 11] : List Nat).length →
        0 < ([1, 2, 3, 4, 5, 6, 7, 8, 9, 10, 11] : List Nat).length % 5 →
        ∃ g0, groups.head? = some g0 ∧
          g0.length = ([1, 2, 3, 4, 5, 6, 7, 8, 9, 10, 11] : List Nat).length / 5 + 1) :=
  split_into_columns_shape Nat [1, 2, 3, 4, 5, 6, 7, 8, 9, 10, 11] 5 12
    (by decide) (by decide)

/-- C7: the two historical variants of `SplitIntoColumns` disagree on element
distribution: on the input `1..11` with 5 rows, the streaming variant
(iter.go) fills round-robin and returns `[[1,6,11],[2,7],[3,8],[4,9],[5,10]]`
while the materializing variant (part_004) returns
`[[1,2,3],[4,5],[6,7],[8,9],[10,11]]`. -/
theorem split_into_columns_variants_disagree :
    (Of ([1, 2, 3, 4, 5, 6, 7, 8, 9, 10, 11] : List Nat)).SplitIntoColumnsV1 20 5 =
      .ok [[some 1, some 6, some 11], [some 2, some 7], [some 3, some 8],
           [some 4, some 9], [some 5, some 10]] ∧
    (Of ([1, 2, 3, 4, 5, 6, 7, 8, 9, 10, 11] : List Nat)).SplitIntoColumns 20 5 =
      .ok [[some 1, some 2, some 3], [some 4, some 5], [some 6, some 7],
           [some 8, some 9], [some 10, some 11]] ∧
    (Of ([1, 2, 3, 4, 5, 6, 7, 8, 9, 10, 11] : List Nat)).SplitIntoColumnsV1 20 5 ≠
      (Of ([1, 2, 3, 4, 5, 6, 7, 8, 9, 10, 11] : List Nat)).SplitIntoColumns 20 5 := by
  have h1 : (Of ([1, 2, 3, 4, 5, 6, 7, 8, 9, 10, 11] : List Nat)).SplitIntoColumnsV1 20 5 =
      .ok [[some 1, some 6, some 11], [some 2, some 7], [some 3, some 8],
           [some 4, some 9], [some 5, some 10]] := rfl
  have h2 : (Of ([1, 2, 3, 4, 5, 6, 7, 8, 9, 10, 11] : List Nat)).SplitIntoColumns 20 5 =
      .ok [[some 1, some 2, some 3], [some 4, some 5], [some 6, some 7],
           [some 8, some 9], [some 10, some 11]] := rfl
  refine ⟨h1, h2, ?_⟩
  rw [h1, h2]
  simp

/-- The flatten closure agrees with the spec's depth-first-leaves function
(proved by strong induction on the size of the nested value list). -/
theorem flattenListF_eq_dfLeavesList_aux :
    ∀ (n : Nat) (l : List (NestedVal α)), sizeOf l ≤ n →
      flattenListF l = dfLeavesList l := by
  intro n
  induction n with
  | zero =>
    intro l h
    cases l with
    | nil => simp [flattenListF, dfLeavesList]
    | cons a t =>
      have := List.cons.sizeOf_spec a t
      omega
  | succ m ih =>
    intro l h
    cases l with
    | nil => simp [flattenListF, dfLeavesList]
    | cons a t =>
      have hc := List.cons.sizeOf_spec a t
      cases a with
      | leaf x =>
        have ht : sizeOf t ≤ m := by omega
        simp [flattenListF, dfLeavesList, dfLeaves, ih t ht]
      | arr l2 =>
        have ha := NestedVal.arr.sizeOf_spec l2
        have ht : sizeOf t ≤ m := by omega
        have hl2 : sizeOf l2 ≤ m := by omega
        simp [flattenListF, dfLeavesList, dfLeaves, ih t ht, ih l2 hl2]

/-- The flatten closure and the spec's depth-first leaves coincide. -/
theorem flattenListF_eq_dfLeavesList (l : List (NestedVal α)) :
    flattenListF l = dfLeavesList l :=
  flattenListF_eq_dfLeavesList_aux (sizeOf l) l (Nat.le_refl _)

/-- C8: `FlattenArraySlice` produces the leaf values of a nested array/slice
in left-to-right, depth-first order (it agrees with the spec's depth-first
leaves function on every nested input, and yields `[1..8]` on the spec's
example), and it is idempotent on flat input: flattening a one-dimensional
sequence of non-sequence elements returns it unchanged. -/
theorem flatten_depth_first_and_idempotent :
    (FlattenArraySlice (NestedVal.arr
        [NestedVal.leaf 1, NestedVal.arr [NestedVal.leaf 2, NestedVal.leaf 3],
         NestedVal.arr [NestedVal.arr [NestedVal.leaf 4, NestedVal.leaf 5],
           NestedVal.arr [NestedVal.leaf 6, NestedVal.leaf 7, NestedVal.leaf 8]]])
      = .ok ([1, 2, 3, 4, 5, 6, 7, 8] : List Nat)) ∧
    (∀ (α : Type) (l : List (NestedVal α)),
      FlattenArraySlice (NestedVal.arr l) = .ok (dfLeavesList l)) ∧
    (∀ (α : Type) (l : List α),
      FlattenArraySlice (NestedVal.arr (l.map NestedVal.leaf)) = .ok l) := by
  refine ⟨?_, ?_, ?_⟩
  · simp [FlattenArraySlice, flattenListF]
  · intro α l
    simp [FlattenArraySlice, flattenListF_eq_dfLeavesList]
  · intro α l
    simp only [FlattenArraySlice, Except.ok.injEq]
    induction l with
    | nil => simp [flattenListF]
    | cons a t iht => simp [flattenListF, iht]

/-- C4 (code evaluation): the byte source `[0x00]` is the valid UTF-8
encoding of the single character U+0000, yet the rune adapter reports
immediate exhaustion and yields no characters (the `buf[0] == 0` check
mistakes a NUL byte for end of input), contradicting the claim that every
valid UTF-8 source yields exactly its characters; on NUL-free input the
adapter does decode correctly across 1-, 2-, 3- and 4-byte characters, and
a truncated encoding panics with the invalid-encoding message. -/
theorem runes_nul_dropped :
    utf8Encode [0] = [0] ∧
    ReaderToRunesAll 4 [0] = .ok [] ∧
    ReaderToRunesAll 8 (utf8Encode [97, 233, 7681, 119185]) =
      .ok [97, 233, 7681, 119185] ∧
    ReaderToRunesAll 4 [0xC3] = .error InvalidUTF8EncodingError :=
  ⟨rfl, rfl, rfl, rfl⟩

/-- C5 (code evaluation): the lines adapter yields the claimed results on
the spec's examples (`"two\r\nline crlf"` gives the two lines and an empty
source gives zero lines), but on `"a\rb\nc"` it yields `["a", "bc"]` instead
of the `["a", "b", "c"]` demanded by the claimed terminator rule, because
the `lastCR` flag is not cleared by ordinary characters and therefore
swallows a later lone LF. -/
theorem lines_crlf_flag_bug :
    ReaderToLinesAll 20
        [116, 119, 111, 13, 10, 108, 105, 110, 101, 32, 99, 114, 108, 102] =
      .ok [[116, 119, 111], [108, 105, 110, 101, 32, 99, 114, 108, 102]] ∧
    ReaderToLinesAll 4 [] = .ok [] ∧
    splitLinesSpec [] [97, 13, 98, 10, 99] = [[97], [98], [99]] ∧
    ReaderToLinesAll 20 [97, 13, 98, 10, 99] = .ok [[97], [98, 99]] ∧
    ReaderToLinesAll 20 [97, 13, 98, 10, 99] ≠
      .ok (splitLinesSpec [] [97, 13, 98, 10, 99]) := by
  refine ⟨rfl, rfl, rfl, rfl, ?_⟩
  rw [show ReaderToLinesAll 20 [97, 13, 98, 10, 99] =
        .ok [[97], [98, 99]] from rfl,
      show splitLinesSpec [] [97, 13, 98, 10, 99] = [[97], [98], [99]] from rfl]
  simp

end Goiter
